import Mathlib

/-!
Verification development for the Signal Evaluation & Monitoring Engine of the
daily_stock_analysis repository.  The definitions below are a shallow
embedding of the Python sources:

* `src/src/quant/backtester.py`  (class `VectorBacktester`)
* `src/src/quant/monitor.py`     (class `RealTimeMonitor`, method `run_once`)
* `src/src/quant/strategy_manager.py` (class `StrategyManager`)

pandas `Series` columns are embedded as `List ℚ`; a DataFrame row of OHLCV
data is embedded as a `Bar`.  Fallible Python code (code that may raise) is
embedded in `Except String`.  Machine floats are embedded as exact rationals;
no claim below depends on float rounding.
-/

namespace DSA

/-- One OHLCV row of a price DataFrame.  The Python column `open` is called
`opn` here because `open` is a Lean keyword. -/
structure Bar where
  date : ℕ
  opn : ℚ
  high : ℚ
  low : ℚ
  close : ℚ
  volume : ℚ
deriving Repr, DecidableEq

/-! ### pandas Series primitives used by the backtester -/

/-- pandas `series.shift(1).fillna(0)` on a column. -/
def shift1_fillna0 (l : List ℚ) : List ℚ :=
  match l with
  | [] => []
  | _ :: _ => 0 :: l.dropLast

/-- Helper for `pct_change`: successive ratios against the previous value. -/
def pctChangeAux (prev : ℚ) : List ℚ → List ℚ
  | [] => []
  | x :: xs => (x / prev - 1) :: pctChangeAux x xs

/-- pandas `series.pct_change().fillna(0)`. -/
def pct_change_fillna0 : List ℚ → List ℚ
  | [] => []
  | c :: rest => 0 :: pctChangeAux c rest

/-- Helper for `diff().abs()`: successive absolute differences. -/
def diffAbsAux (prev : ℚ) : List ℚ → List ℚ
  | [] => []
  | x :: xs => |x - prev| :: diffAbsAux x xs

/-- pandas `series.diff().abs().fillna(0)`. -/
def diff_abs_fillna0 : List ℚ → List ℚ
  | [] => []
  | a :: rest => 0 :: diffAbsAux a rest

/-- Helper for `cumprod`: running product with accumulator `acc`. -/
def cumprodAux (acc : ℚ) : List ℚ → List ℚ
  | [] => []
  | a :: l => (acc * a) :: cumprodAux (acc * a) l

/-- pandas `series.cumprod()`. -/
def cumprod (l : List ℚ) : List ℚ := cumprodAux 1 l

/-- Helper for `expanding().max()`: running maximum with seed `m`. -/
def expandingMaxAux (m : ℚ) : List ℚ → List ℚ
  | [] => []
  | a :: l => (max m a) :: expandingMaxAux (max m a) l

/-- pandas `series.expanding().max()`. -/
def expandingMax : List ℚ → List ℚ
  | [] => []
  | a :: l => a :: expandingMaxAux a l

/-- pandas `series.min()`; `none` on an empty series. -/
def seriesMin : List ℚ → Option ℚ
  | [] => none
  | a :: l => some (l.foldl min a)

/-- pandas `series.iloc[-1]`, which raises `IndexError` on an empty series. -/
def ilocLast (l : List ℚ) : Except String ℚ :=
  match l.getLast? with
  | some x => Except.ok x
  | none => Except.error "single positional indexer is out-of-bounds"

/-! ### VectorBacktester (backtester.py) -/

/-- The input DataFrame of `VectorBacktester.run`: which of the required
price columns are present, plus the OHLCV rows. -/
structure BTInput where
  hasOpenCol : Bool
  hasCloseCol : Bool
  hasHighCol : Bool
  hasLowCol : Bool
  rows : List Bar
deriving Repr, DecidableEq

/-- The rational-valued statistics of `_calculate_metrics`.  The fields
`annual_return`, `volatility` and `sharpe_ratio` of the Python dict involve
real-valued powers and square roots (they are irrational-valued); no claim
refers to them numerically, so they are not carried here. -/
structure BTStats where
  total_return : ℚ
  max_drawdown : ℚ
  win_rate : ℚ
deriving Repr, DecidableEq

/-- Result of `VectorBacktester.run`: the `{}` dict returned on missing
columns, the error dict built in the `except` branch, or the statistics. -/
inductive BTResult where
  | empty : BTResult
  | error (msg : String) : BTResult
  | ok (stats : BTStats) : BTResult
deriving Repr, DecidableEq

/-- A compiled strategy function: receives the rows of the DataFrame and
either raises (`Except.error`) or returns a signal column. -/
abbrev StratFun := List Bar → Except String (List ℚ)

/-- Line 35 of backtester.py: `all(col in data.columns for col in required_cols)`
with `required_cols = ['open', 'close', 'high', 'low']`. -/
def requiredColsOk (df : BTInput) : Bool :=
  df.hasOpenCol && df.hasCloseCol && df.hasHighCol && df.hasLowCol

/-- `data['position'] = data['signal'].shift(1).fillna(0)`. -/
def positionCol (sig : List ℚ) : List ℚ := shift1_fillna0 sig

/-- `data['market_ret'] = data['close'].pct_change().fillna(0)`. -/
def marketRetCol (closes : List ℚ) : List ℚ := pct_change_fillna0 closes

/-- `data['strategy_ret'] = data['position'] * data['market_ret']`. -/
def strategyRetCol (pos mret : List ℚ) : List ℚ := List.zipWith (· * ·) pos mret

/-- `data['trade_occurred'] = data['position'].diff().abs().fillna(0)`. -/
def tradeOccurredCol (pos : List ℚ) : List ℚ := diff_abs_fillna0 pos

/-- `data['cost'] = data['trade_occurred'] * commission`. -/
def costCol (trade : List ℚ) (commission : ℚ) : List ℚ := trade.map (· * commission)

/-- `data['net_strategy_ret'] = data['strategy_ret'] - data['cost']`. -/
def netRetCol (sret cost : List ℚ) : List ℚ := List.zipWith (· - ·) sret cost

/-- `data['equity_curve'] = (1 + data['net_strategy_ret']).cumprod() * initial_capital`. -/
def equityCol (net : List ℚ) (initial_capital : ℚ) : List ℚ :=
  (cumprod (net.map (fun x => 1 + x))).map (· * initial_capital)

/-- `_calculate_metrics` (backtester.py lines 78-122), restricted to the
rational-valued fields.  `equity.iloc[-1]` raises on an empty series, which
is the only raise site reachable from `run`; the later `.min()` of the
drawdown series is then on a non-empty series (default 0 unreachable). -/
def calculateMetrics (net equity pos : List ℚ) (initial_capital : ℚ) :
    Except String BTStats :=
  match ilocLast equity with
  | Except.error e => Except.error e
  | Except.ok equityLast =>
    let total_return := (equityLast - initial_capital) / initial_capital
    let rolling_max := expandingMax equity
    let drawdown := List.zipWith (fun e m => (e - m) / m) equity rolling_max
    let max_drawdown := (seriesMin drawdown).getD 0
    let holding_days := (List.zip pos net).filter (fun p => decide (p.1 ≠ 0))
    let win_rate : ℚ :=
      if holding_days.length > 0 then
        ((holding_days.filter (fun p => decide (0 < p.2))).length : ℚ) / (holding_days.length : ℚ)
      else 0
    Except.ok { total_return := total_return, max_drawdown := max_drawdown, win_rate := win_rate }

/-- `VectorBacktester.run` (backtester.py lines 18-76).  `data = df.copy()`
gives the engine value semantics on its own frame; the aliasing side of that
copy is modelled separately by the store-level embedding `runST` below. -/
def run (strategy_func : StratFun) (df : BTInput)
    (initial_capital commission : ℚ) : BTResult :=
  let data := df
  if requiredColsOk data = false then
    BTResult.empty
  else
    match strategy_func data.rows with
    | Except.error e => BTResult.error e
    | Except.ok sig =>
      let closes := data.rows.map Bar.close
      let pos := positionCol sig
      let mret := marketRetCol closes
      let sret := strategyRetCol pos mret
      let trade := tradeOccurredCol pos
      let cost := costCol trade commission
      let net := netRetCol sret cost
      let equity := equityCol net initial_capital
      match calculateMetrics net equity pos initial_capital with
      | Except.error e => BTResult.error e
      | Except.ok stats => BTResult.ok stats

/-! ### StrategyManager (strategy_manager.py) -/

/-- One strategy record of `data/strategies.json`. -/
structure StrategyRec where
  id : String
  name : String
  description : String
  code : String
  created_at : String
  status : String
deriving Repr, DecidableEq

/-- The fallible file write performed inside `_save_strategies` (the
`open`/`json.dump` pair), supplied by the filesystem collaborator. -/
abbrev WriteFun := List StrategyRec → Except String Unit

/-- `_save_strategies` (strategy_manager.py lines 32-39): the write is wrapped
in `try`/`except`; a failure is logged via `logger.error` and swallowed, so
the function always returns normally. -/
def saveStrategies (write : WriteFun) (strategies : List StrategyRec) :
    Except String Unit :=
  match write strategies with
  | Except.error _ => Except.ok ()
  | Except.ok _ => Except.ok ()

/-- `add_strategy` (lines 41-56).  `strategy_id` models `str(uuid.uuid4())[:8]`
and `created_at` models `datetime.now().isoformat()`, both external sources of
fresh values; the method returns the updated list and the new id. -/
def addStrategy (write : WriteFun) (strategies : List StrategyRec)
    (strategy_id name description code created_at : String) :
    Except String (List StrategyRec × String) :=
  let new_strategy : StrategyRec :=
    { id := strategy_id, name := name, description := description,
      code := code, created_at := created_at, status := "active" }
  let strategies2 := strategies ++ [new_strategy]
  match saveStrategies write strategies2 with
  | Except.error e => Except.error e
  | Except.ok _ => Except.ok (strategies2, strategy_id)

/-- `delete_strategy` (lines 58-66): keep the records whose id differs, save
only when the length shrank, return whether anything was removed. -/
def deleteStrategy (write : WriteFun) (strategies : List StrategyRec)
    (strategy_id : String) : Except String (List StrategyRec × Bool) :=
  let strategies2 := strategies.filter (fun s => s.id != strategy_id)
  if strategies2.length < strategies.length then
    match saveStrategies write strategies2 with
    | Except.error e => Except.error e
    | Except.ok _ => Except.ok (strategies2, true)
  else Except.ok (strategies2, false)

/-- The in-place `s['status'] = new_status` of the first record matching the
id inside `toggle_strategy`: update the first match, keep the rest. -/
def setStatusFirst : List StrategyRec → String → String → List StrategyRec
  | [], _, _ => []
  | s :: rest, sid, new_status =>
    if s.id = sid then { s with status := new_status } :: rest
    else s :: setStatusFirst rest sid new_status

/-- `toggle_strategy` (lines 68-75): scan for the first record with the given
id; on a hit mutate its status, save the whole list and return `true`;
otherwise return `false` without saving.  No validation of `new_status`. -/
def toggleStrategy (write : WriteFun) (strategies : List StrategyRec)
    (strategy_id new_status : String) : Except String (List StrategyRec × Bool) :=
  if strategies.any (fun s => s.id == strategy_id) then
    let strategies2 := setStatusFirst strategies strategy_id new_status
    match saveStrategies write strategies2 with
    | Except.error e => Except.error e
    | Except.ok _ => Except.ok (strategies2, true)
  else Except.ok (strategies, false)

/-- `get_strategy` (lines 77-81): first record with the given id, else `None`. -/
def getStrategy (strategies : List StrategyRec) (strategy_id : String) :
    Option StrategyRec :=
  strategies.find? (fun s => s.id == strategy_id)

/-- `get_active_strategies` (lines 83-84). -/
def getActiveStrategies (strategies : List StrategyRec) : List StrategyRec :=
  strategies.filter (fun s => s.status == "active")

/-! ### RealTimeMonitor.run_once (monitor.py) -/

/-- The last bar of the cached window updated column-by-column with the live
snapshot values (monitor.py lines 110-113): the date is kept, the five OHLCV
fields take the snapshot values. -/
def updateLastBar : List Bar → Bar → List Bar
  | [], _ => []
  | [b], snapshot =>
    [{ b with opn := snapshot.opn, high := snapshot.high, low := snapshot.low,
              close := snapshot.close, volume := snapshot.volume }]
  | b :: r :: rest, snapshot => b :: updateLastBar (r :: rest) snapshot

/-- The window-merge step of `run_once` (monitor.py lines 97-116), comparing
the snapshot date with the window's last date.  The cached window is never
empty in `run_once` (`load_context` only caches non-empty histories), so the
`getLast? = none` branch is unreachable; it returns the window unchanged. -/
def mergeWindow (hist_df : List Bar) (snapshot : Bar) : List Bar :=
  match hist_df.getLast? with
  | none => hist_df
  | some lastBar =>
    if lastBar.date < snapshot.date then
      hist_df ++ [snapshot]
    else if snapshot.date = lastBar.date then
      updateLastBar hist_df snapshot
    else
      hist_df

/-- A compiled monitor strategy: on the evaluation window it either raises
(`Except.error`), returns a value that is not a pandas Series (`Except.ok
none`), or returns a Series with the given values (`Except.ok (some l)`). -/
abbrev MonStrat := List Bar → Except String (Option (List ℚ))

/-- One alert dict of `run_once` (monitor.py lines 130-136). -/
structure Alert where
  stock : String
  price : ℚ
  strategy : String
  signal : String
  time : String
deriving Repr, DecidableEq

/-- The body of the inner strategy loop of `run_once` (monitor.py lines
119-139) for one (stock, strategy) pair.  A raise is caught (`none`); a
non-Series or empty-Series result produces no alert; otherwise the last
signal is compared with 1; on an alert the strategy name is looked up via
`get_strategy`, and the attribute access on a `None` lookup raises inside
the same `try`, which is caught (`none`). -/
def evalPair (strategies : List StrategyRec) (now : String)
    (stock_code : String) (snapshot : Bar) (eval_df : List Bar)
    (s_id : String) (strategy_func : MonStrat) : Option Alert :=
  match strategy_func eval_df with
  | Except.error _ => none
  | Except.ok none => none
  | Except.ok (some signals) =>
    if signals.isEmpty then none
    else
      match signals.getLast? with
      | none => none
      | some last_signal =>
        if last_signal = 1 then
          match getStrategy strategies s_id with
          | some strategy_info =>
            some { stock := stock_code, price := snapshot.close,
                   strategy := strategy_info.name, signal := "BUY", time := now }
          | none => none
        else none

/-- The alerts contributed by one stock in one tick: the compiled strategies
are run in order against the merged window. -/
def stockAlerts (strategies : List StrategyRec) (now : String)
    (compiled : List (String × MonStrat)) (stock_code : String)
    (snapshot : Bar) (eval_df : List Bar) : List Alert :=
  compiled.filterMap (fun p => evalPair strategies now stock_code snapshot eval_df p.1 p.2)

/-- Dict lookup `self.history_cache[stock_code]` guarded by
`stock_code not in self.history_cache: continue`. -/
def lookupCache (history_cache : List (String × List Bar)) (stock_code : String) :
    Option (List Bar) :=
  (history_cache.find? (fun p => p.1 == stock_code)).map (fun p => p.2)

/-- Result of one tick: the collected alerts and whether `_send_alerts`
was invoked. -/
structure TickResult where
  alerts : List Alert
  dispatched : Bool
deriving Repr, DecidableEq

/-- `run_once` (monitor.py lines 65-143) after the snapshot fetch: the fetch
itself is an external collaborator (`_fetch_realtime_snapshot` via akshare),
so the snapshot map `realtime_data` is a parameter; `now` models
`datetime.now().strftime(..)`.  Guards: no compiled strategies or no cached
history returns early; otherwise each snapshot entry with a cached window is
merged and evaluated, and `_send_alerts` runs iff the batch is non-empty. -/
def runOnce (strategies : List StrategyRec) (compiled : List (String × MonStrat))
    (history_cache : List (String × List Bar)) (realtime_data : List (String × Bar))
    (now : String) : TickResult :=
  if compiled.isEmpty then { alerts := [], dispatched := false }
  else if history_cache.isEmpty then { alerts := [], dispatched := false }
  else
    let alerts := (realtime_data.map (fun p =>
      match lookupCache history_cache p.1 with
      | none => []
      | some hist_df => stockAlerts strategies now compiled p.1 p.2 (mergeWindow hist_df p.2))).flatten
    { alerts := alerts, dispatched := !alerts.isEmpty }

/-! ### Store-level embedding for the mutation claims

`VectorBacktester.run` mutates the frame it works on by adding columns, and
the `==` branch of the window merge mutates its frame with `.at[...]`
assignments.  To state that neither touches the caller's frame, DataFrames
are modelled as references into a store of frames: `df.copy()` allocates a
fresh frame, column/cell assignment writes through the reference. -/

/-- A DataFrame as an association list of named columns. -/
abbrev ColFrame := List (String × List ℚ)

/-- Assignment `frame[name] = v`: replace the column if present, else append it. -/
def setCol : ColFrame → String → List ℚ → ColFrame
  | [], name, v => [(name, v)]
  | c :: rest, name, v =>
    if c.1 = name then (name, v) :: rest else c :: setCol rest name v

/-- Column read `frame[name]` (empty column when absent). -/
def getCol (f : ColFrame) (name : String) : List ℚ :=
  ((f.find? (fun c => c.1 == name)).map (fun c => c.2)).getD []

/-- A store of column frames; a DataFrame value in Python is a reference
(an index) into the store. -/
abbrev BStore := List ColFrame

/-- Allocate a fresh frame (e.g. the result of `df.copy()`). -/
def ballocF (st : BStore) (f : ColFrame) : BStore × ℕ := (st ++ [f], st.length)

/-- Dereference a frame. -/
def breadF (st : BStore) (r : ℕ) : ColFrame := st.getD r []

/-- In-place column assignment through a reference. -/
def bwriteCol (st : BStore) (r : ℕ) (name : String) (v : List ℚ) : BStore :=
  st.set r (setCol (breadF st r) name v)

/-- Line 35 check on a column frame: `all(col in data.columns for col in
['open', 'close', 'high', 'low'])`. -/
def requiredColsPresent (f : ColFrame) : Bool :=
  ["open", "close", "high", "low"].all (fun c => (f.find? (fun p => p.1 == c)).isSome)

/-- `VectorBacktester.run` at store level (backtester.py lines 18-76): copy
the caller's frame (line 31), check columns, then perform the column
assignments of lines 41-66 through the copy's reference; `_calculate_metrics`
only reads.  The strategy receives the data frame by value (it is pure per
the Strategy Contract). -/
def runST (strategy_func : ColFrame → Except String (List ℚ)) (st0 : BStore)
    (dfRef : ℕ) (initial_capital commission : ℚ) : BStore × BTResult :=
  let alloc1 := ballocF st0 (breadF st0 dfRef)
  let st1 := alloc1.1
  let dataRef := alloc1.2
  if requiredColsPresent (breadF st1 dataRef) = false then
    (st1, BTResult.empty)
  else
    match strategy_func (breadF st1 dataRef) with
    | Except.error e => (st1, BTResult.error e)
    | Except.ok sig =>
      let st2 := bwriteCol st1 dataRef "signal" sig
      let st3 := bwriteCol st2 dataRef "position"
        (positionCol (getCol (breadF st2 dataRef) "signal"))
      let st4 := bwriteCol st3 dataRef "market_ret"
        (marketRetCol (getCol (breadF st3 dataRef) "close"))
      let st5 := bwriteCol st4 dataRef "strategy_ret"
        (strategyRetCol (getCol (breadF st4 dataRef) "position")
                        (getCol (breadF st4 dataRef) "market_ret"))
      let st6 := bwriteCol st5 dataRef "trade_occurred"
        (tradeOccurredCol (getCol (breadF st5 dataRef) "position"))
      let st7 := bwriteCol st6 dataRef "cost"
        (costCol (getCol (breadF st6 dataRef) "trade_occurred") commission)
      let st8 := bwriteCol st7 dataRef "net_strategy_ret"
        (netRetCol (getCol (breadF st7 dataRef) "strategy_ret")
                   (getCol (breadF st7 dataRef) "cost"))
      let st9 := bwriteCol st8 dataRef "equity_curve"
        (equityCol (getCol (breadF st8 dataRef) "net_strategy_ret") initial_capital)
      match calculateMetrics (getCol (breadF st9 dataRef) "net_strategy_ret")
              (getCol (breadF st9 dataRef) "equity_curve")
              (getCol (breadF st9 dataRef) "position") initial_capital with
      | Except.error e => (st9, BTResult.error e)
      | Except.ok stats => (st9, BTResult.ok stats)

/-- A store of bar-list windows for the monitor cache. -/
abbrev WStore := List (List Bar)

/-- Allocate a fresh window (e.g. `hist_df.copy()` or the frame built by
`pd.concat`). -/
def wallocF (st : WStore) (w : List Bar) : WStore × ℕ := (st ++ [w], st.length)

/-- Dereference a window. -/
def wreadF (st : WStore) (r : ℕ) : List Bar := st.getD r []

/-- In-place window update through a reference. -/
def wwriteF (st : WStore) (r : ℕ) (w : List Bar) : WStore := st.set r w

/-- `{ b with one OHLCV field from the snapshot }`, indexed by column name;
used to mirror the per-column `.at` assignments of monitor.py line 112-113. -/
def updateField (snapshot : Bar) (col : String) (b : Bar) : Bar :=
  if col = "open" then { b with opn := snapshot.opn }
  else if col = "high" then { b with high := snapshot.high }
  else if col = "low" then { b with low := snapshot.low }
  else if col = "close" then { b with close := snapshot.close }
  else if col = "volume" then { b with volume := snapshot.volume }
  else b

/-- Apply a function to the last bar of a window
(`eval_df.at[eval_df.index[-1], col] = ...`). -/
def mapLast (f : Bar → Bar) : List Bar → List Bar
  | [] => []
  | [b] => [f b]
  | b :: r :: rest => b :: mapLast f (r :: rest)

/-- One `.at` assignment `eval_df.at[last, col] = snapshot[col]` through a
window reference. -/
def watLastSet (st : WStore) (r : ℕ) (snapshot : Bar) (col : String) : WStore :=
  wwriteF st r (mapLast (updateField snapshot col) (wreadF st r))

/-- The window-merge step of `run_once` at store level (monitor.py lines
97-116).  Branch `>`: `pd.concat` builds a fresh frame.  Branch `==`:
`hist_df.copy()` then five `.at` assignments through the copy.  Branch `<`:
`hist_df.copy()`.  The empty-cache branch is unreachable in `run_once` and
leaves the store untouched. -/
def mergeST (st : WStore) (histRef : ℕ) (snapshot : Bar) : WStore × ℕ :=
  let hist_df := wreadF st histRef
  match hist_df.getLast? with
  | none => (st, histRef)
  | some lastBar =>
    if lastBar.date < snapshot.date then
      wallocF st (hist_df ++ [snapshot])
    else if snapshot.date = lastBar.date then
      let alloc1 := wallocF st hist_df
      let st1 := alloc1.1
      let evalRef := alloc1.2
      let st2 := watLastSet st1 evalRef snapshot "open"
      let st3 := watLastSet st2 evalRef snapshot "high"
      let st4 := watLastSet st3 evalRef snapshot "low"
      let st5 := watLastSet st4 evalRef snapshot "close"
      let st6 := watLastSet st5 evalRef snapshot "volume"
      (st6, evalRef)
    else
      wallocF st hist_df

/-! ### Helper lemmas -/

theorem dropLast_getElem? {α : Type} (l : List α) (n : ℕ) (h : n + 1 < l.length) :
    l.dropLast[n]? = l[n]? := by
  induction l generalizing n with
  | nil => simp at h
  | cons a t ih =>
    cases t with
    | nil => simp at h
    | cons b t2 =>
      cases n with
      | zero => simp [List.dropLast]
      | succ m =>
        have h2 : m + 1 < (b :: t2).length := by simpa using h
        simp only [List.dropLast, List.getElem?_cons_succ]
        exact ih m h2

theorem saveStrategies_ok (write : WriteFun) (strategies : List StrategyRec) :
    saveStrategies write strategies = Except.ok () := by
  unfold saveStrategies
  cases write strategies <;> rfl

/-! ### Claim theorems -/

/-- C1: in `VectorBacktester.run`, the position series is the signal series
lagged by exactly one bar: `position[0] = 0` and `position[t] = signal[t-1]`
for `0 < t < n`; and `strategy_return[0] = 0`.  Consequently, for any second
input (in particular one differing from the first only in `close[0]`),
`position[0]` and `strategy_return[0]` are unchanged. -/
theorem position_lags_signal (strategy_func : StratFun) (df df2 : BTInput)
    (sig sig2 : List ℚ)
    (hrows : df.rows ≠ []) (hsig : strategy_func df.rows = Except.ok sig)
    (hlen : sig.length = df.rows.length)
    (hrows2 : df2.rows ≠ []) (hsig2 : strategy_func df2.rows = Except.ok sig2)
    (hlen2 : sig2.length = df2.rows.length) :
    (positionCol sig)[0]? = some 0
    ∧ (∀ t, 0 < t → t < sig.length → (positionCol sig)[t]? = sig[t - 1]?)
    ∧ (strategyRetCol (positionCol sig) (marketRetCol (df.rows.map Bar.close)))[0]?
        = some 0
    ∧ (positionCol sig2)[0]? = (positionCol sig)[0]?
    ∧ (strategyRetCol (positionCol sig2) (marketRetCol (df2.rows.map Bar.close)))[0]?
        = (strategyRetCol (positionCol sig) (marketRetCol (df.rows.map Bar.close)))[0]?
    := by
  have hsig_ne : sig ≠ [] := by
    intro h
    rw [h] at hlen
    exact hrows (List.length_eq_zero.mp hlen.symm)
  have hsig2_ne : sig2 ≠ [] := by
    intro h
    rw [h] at hlen2
    exact hrows2 (List.length_eq_zero.mp hlen2.symm)
  have hpos0 : ∀ s : List ℚ, s ≠ [] → (positionCol s)[0]? = some 0 := by
    intro s hs
    cases s with
    | nil => exact absurd rfl hs
    | cons a t => simp [positionCol, shift1_fillna0]
  have hsr0 : ∀ (s : List ℚ) (rows : List Bar), s ≠ [] → rows ≠ [] →
      (strategyRetCol (positionCol s) (marketRetCol (rows.map Bar.close)))[0]? = some 0 := by
    intro s rows hs hr
    cases s with
    | nil => exact absurd rfl hs
    | cons a t =>
      cases rows with
      | nil => exact absurd rfl hr
      | cons b r =>
        simp [strategyRetCol, positionCol, shift1_fillna0, marketRetCol,
          pct_change_fillna0]
  refine ⟨hpos0 sig hsig_ne, ?_, hsr0 sig df.rows hsig_ne hrows, ?_, ?_⟩
  · intro t ht htlen
    cases sig with
    | nil => exact absurd rfl hsig_ne
    | cons a s =>
      obtain ⟨m, rfl⟩ : ∃ m, t = m + 1 := ⟨t - 1, by omega⟩
      simp only [positionCol, shift1_fillna0, List.getElem?_cons_succ,
        Nat.add_sub_cancel]
      exact dropLast_getElem? (a :: s) m (by simpa using htlen)
  · rw [hpos0 sig hsig_ne, hpos0 sig2 hsig2_ne]
  · rw [hsr0 sig df.rows hsig_ne hrows, hsr0 sig2 df2.rows hsig2_ne hrows2]

/-- C1 witness at a concrete input. -/
theorem position_lags_signal_witness :
    ([⟨0, 1, 1, 1, 10, 1⟩, ⟨1, 1, 1, 1, 11, 1⟩] : List Bar) ≠ []
    ∧ (positionCol [(7 : ℚ), 1])[0]? = some 0
    ∧ (positionCol [(7 : ℚ), 1])[1]? = some 7 := by
  have h := position_lags_signal (fun rows => Except.ok (rows.map (fun _ => (0 : ℚ))))
    { hasOpenCol := true, hasCloseCol := true, hasHighCol := true, hasLowCol := true,
      rows := [⟨0, 1, 1, 1, 10, 1⟩, ⟨1, 1, 1, 1, 11, 1⟩] }
    { hasOpenCol := true, hasCloseCol := true, hasHighCol := true, hasLowCol := true,
      rows := [⟨0, 1, 1, 1, 10, 1⟩] }
    [0, 0] [0] (by simp) rfl rfl (by simp) rfl rfl
  refine ⟨by simp, ?_, ?_⟩ <;> simp [positionCol, shift1_fillna0]

/-- C3: `VectorBacktester.run` is total by construction (it is a Lean
function into `BTResult`; every raise site of the Python body sits inside
the `try`/`except` of lines 39-76), and on an input missing a required
price column it returns the explicit `{}` value, while on an empty series
(with the columns present) every path returns the explicit error value. -/
theorem run_error_value_on_bad_input (strategy_func : StratFun) (df : BTInput)
    (initial_capital commission : ℚ)
    (h : requiredColsOk df = false ∨ df.rows = []) :
    (requiredColsOk df = false →
      run strategy_func df initial_capital commission = BTResult.empty)
    ∧ (requiredColsOk df = true →
      ∃ msg, run strategy_func df initial_capital commission = BTResult.error msg) := by
  constructor
  · intro hmiss
    simp [run, hmiss]
  · intro hcols
    have hrows : df.rows = [] := by
      cases h with
      | inl hm => rw [hm] at hcols; exact absurd hcols (by simp)
      | inr hr => exact hr
    simp only [run, hcols]
    cases hstr : strategy_func df.rows with
    | error e => exact ⟨e, by simp⟩
    | ok sig =>
      have hclose : df.rows.map Bar.close = [] := by rw [hrows]; rfl
      have hmret : marketRetCol (df.rows.map Bar.close) = [] := by
        rw [hclose]; rfl
      have hsret : strategyRetCol (positionCol sig) (marketRetCol (df.rows.map Bar.close)) = [] := by
        rw [hmret]; simp [strategyRetCol]
      have hnet : netRetCol (strategyRetCol (positionCol sig) (marketRetCol (df.rows.map Bar.close)))
          (costCol (tradeOccurredCol (positionCol sig)) commission) = [] := by
        rw [hsret]; simp [netRetCol]
      refine ⟨"single positional indexer is out-of-bounds", ?_⟩
      simp [hnet, calculateMetrics, ilocLast, equityCol, cumprod, cumprodAux]

/-- C3 witness at concrete inputs (one missing `close`, one with the columns
but no rows). -/
theorem run_error_value_on_bad_input_witness :
    run (fun _ => Except.ok []) ⟨true, false, true, true, [⟨0, 1, 1, 1, 1, 1⟩]⟩ 100000 0
      = BTResult.empty
    ∧ ∃ msg, run (fun _ => Except.ok []) ⟨true, true, true, true, []⟩ 100000 0
      = BTResult.error msg := by
  constructor
  · exact (run_error_value_on_bad_input (fun _ => Except.ok [])
      ⟨true, false, true, true, [⟨0, 1, 1, 1, 1, 1⟩]⟩ 100000 0 (Or.inl rfl)).1 rfl
  · exact (run_error_value_on_bad_input (fun _ => Except.ok [])
      ⟨true, true, true, true, []⟩ 100000 0 (Or.inr rfl)).2 rfl

/-- C7 counterexample: with a write function that always fails,
`add_strategy` still completes normally and returns the new id — the
persistence failure is not propagated to the caller (it is caught and only
logged inside `_save_strategies`), contrary to the claim. -/
theorem write_failure_not_propagated_cex :
    addStrategy (fun _ => Except.error "disk full") [] "abc12345" "n" "d" "c" "t"
      = Except.ok ([⟨"abc12345", "n", "d", "c", "t", "active"⟩], "abc12345")
    ∧ deleteStrategy (fun _ => Except.error "disk full")
        [⟨"abc12345", "n", "d", "c", "t", "active"⟩] "abc12345"
      = Except.ok ([], true)
    ∧ toggleStrategy (fun _ => Except.error "disk full")
        [⟨"abc12345", "n", "d", "c", "t", "active"⟩] "abc12345" "inactive"
      = Except.ok ([⟨"abc12345", "n", "d", "c", "t", "inactive"⟩], true) := by
  refine ⟨rfl, ?_, ?_⟩ <;>
    simp [deleteStrategy, toggleStrategy, saveStrategies, setStatusFirst,
      List.filter]

/-- C7 amended: a failure of the strategy-store write is caught and logged
inside `_save_strategies` and never propagated: `add_strategy`,
`delete_strategy` and `toggle_strategy` always return normally, for every
write function (in particular an always-failing one). -/
theorem mutating_ops_never_fail (write : WriteFun)
    (strategies : List StrategyRec)
    (sid name description code ts new_status : String) :
    (∃ r, addStrategy write strategies sid name description code ts = Except.ok r)
    ∧ (∃ r, deleteStrategy write strategies sid = Except.ok r)
    ∧ (∃ r, toggleStrategy write strategies sid new_status = Except.ok r) := by
  refine ⟨?_, ?_, ?_⟩
  · refine ⟨(strategies ++ [⟨sid, name, description, code, ts, "active"⟩], sid), ?_⟩
    simp [addStrategy, saveStrategies_ok]
  · by_cases hlen : (strategies.filter (fun s => s.id != sid)).length < strategies.length
    · exact ⟨(strategies.filter (fun s => s.id != sid), true),
        by simp [deleteStrategy, hlen, saveStrategies_ok]⟩
    · exact ⟨(strategies.filter (fun s => s.id != sid), false),
        by simp [deleteStrategy, hlen]⟩
  · by_cases hany : strategies.any (fun s => s.id == sid)
    · exact ⟨(setStatusFirst strategies sid new_status, true),
        by simp [toggleStrategy, hany, saveStrategies_ok]⟩
    · exact ⟨(strategies, false), by simp [toggleStrategy, hany]⟩

theorem updateLastBar_length (l : List Bar) (s : Bar) :
    (updateLastBar l s).length = l.length := by
  induction l with
  | nil => rfl
  | cons b rest ih =>
    cases rest with
    | nil => rfl
    | cons r rest2 => simpa [updateLastBar] using ih

theorem updateLastBar_map_date (l : List Bar) (s : Bar) :
    (updateLastBar l s).map Bar.date = l.map Bar.date := by
  induction l with
  | nil => rfl
  | cons b rest ih =>
    cases rest with
    | nil => rfl
    | cons r rest2 => simpa [updateLastBar] using ih

theorem getLast?_cons_of_ne {α : Type} (a : α) (t : List α) (h : t ≠ []) :
    (a :: t).getLast? = t.getLast? := by
  cases t with
  | nil => exact absurd rfl h
  | cons b t2 => exact List.getLast?_cons_cons

theorem updateLastBar_ne_nil (l : List Bar) (s : Bar) (h : l ≠ []) :
    updateLastBar l s ≠ [] := by
  intro hc
  have := updateLastBar_length l s
  rw [hc] at this
  exact h (List.length_eq_zero.mp this.symm)

theorem updateLastBar_getLast? (l : List Bar) (s : Bar) (b : Bar)
    (h : l.getLast? = some b) :
    (updateLastBar l s).getLast?
      = some (Bar.mk b.date s.opn s.high s.low s.close s.volume) := by
  induction l with
  | nil => simp at h
  | cons hd rest ih =>
    cases rest with
    | nil =>
      simp only [List.getLast?_singleton, Option.some.injEq] at h
      subst h
      rfl
    | cons r rest2 =>
      rw [List.getLast?_cons_cons] at h
      have hne : updateLastBar (r :: rest2) s ≠ [] :=
        updateLastBar_ne_nil (r :: rest2) s (by simp)
      rw [show updateLastBar (hd :: r :: rest2) s
            = hd :: updateLastBar (r :: rest2) s from rfl,
        getLast?_cons_of_ne _ _ hne]
      exact ih h

/-- C2: the window-merge step of `run_once`, by cases on the live bar's
date against the last date of the (date-sorted, non-empty) cached window:
strictly newer appends the live bar; equal keeps length and dates and
overwrites the last bar's OHLCV with the live values; older returns the
window unchanged. -/
theorem merge_window_cases (hist_df : List Bar) (snapshot lastBar : Bar)
    (hlast : hist_df.getLast? = some lastBar)
    (hsorted : List.Chain' (fun a b => a.date < b.date) hist_df) :
    (lastBar.date < snapshot.date →
       mergeWindow hist_df snapshot = hist_df ++ [snapshot]
       ∧ (mergeWindow hist_df snapshot).length = hist_df.length + 1
       ∧ (mergeWindow hist_df snapshot).getLast? = some snapshot)
    ∧ (snapshot.date = lastBar.date →
       (mergeWindow hist_df snapshot).length = hist_df.length
       ∧ (mergeWindow hist_df snapshot).map Bar.date = hist_df.map Bar.date
       ∧ (mergeWindow hist_df snapshot).getLast?
           = some (Bar.mk lastBar.date snapshot.opn snapshot.high snapshot.low
               snapshot.close snapshot.volume))
    ∧ (snapshot.date < lastBar.date →
       mergeWindow hist_df snapshot = hist_df) := by
  refine ⟨?_, ?_, ?_⟩
  · intro hlt
    have hm : mergeWindow hist_df snapshot = hist_df ++ [snapshot] := by
      simp [mergeWindow, hlast, hlt]
    refine ⟨hm, ?_, ?_⟩
    · simp [hm]
    · simp [hm, List.getLast?_concat]
  · intro heq
    have hnotlt : ¬ lastBar.date < snapshot.date := by omega
    have hm : mergeWindow hist_df snapshot = updateLastBar hist_df snapshot := by
      simp [mergeWindow, hlast, hnotlt, heq]
    refine ⟨?_, ?_, ?_⟩
    · simp [hm, updateLastBar_length]
    · simp [hm, updateLastBar_map_date]
    · rw [hm, updateLastBar_getLast? hist_df snapshot lastBar hlast]
  · intro hlt
    have hnotlt : ¬ lastBar.date < snapshot.date := by omega
    have hne : ¬ snapshot.date = lastBar.date := by omega
    simp [mergeWindow, hlast, hnotlt, hne]

/-- C2 witness at a concrete two-bar window and the three snapshot dates. -/
theorem merge_window_cases_witness :
    mergeWindow [⟨1, 1, 2, 1, 2, 5⟩, ⟨2, 2, 3, 2, 3, 6⟩] ⟨3, 3, 4, 3, 4, 7⟩
      = [⟨1, 1, 2, 1, 2, 5⟩, ⟨2, 2, 3, 2, 3, 6⟩, ⟨3, 3, 4, 3, 4, 7⟩]
    ∧ (mergeWindow [⟨1, 1, 2, 1, 2, 5⟩, ⟨2, 2, 3, 2, 3, 6⟩] ⟨2, 9, 9, 9, 9, 9⟩).getLast?
      = some ⟨2, 9, 9, 9, 9, 9⟩
    ∧ mergeWindow [⟨1, 1, 2, 1, 2, 5⟩, ⟨2, 2, 3, 2, 3, 6⟩] ⟨1, 9, 9, 9, 9, 9⟩
      = [⟨1, 1, 2, 1, 2, 5⟩, ⟨2, 2, 3, 2, 3, 6⟩] := by
  have hsorted : List.Chain' (fun a b : Bar => a.date < b.date)
      [⟨1, 1, 2, 1, 2, 5⟩, ⟨2, 2, 3, 2, 3, 6⟩] := by
    simp [List.chain'_cons]
  refine ⟨?_, ?_, ?_⟩
  · exact ((merge_window_cases [⟨1, 1, 2, 1, 2, 5⟩, ⟨2, 2, 3, 2, 3, 6⟩]
      ⟨3, 3, 4, 3, 4, 7⟩ ⟨2, 2, 3, 2, 3, 6⟩ rfl hsorted).1 (by norm_num)).1
  · exact ((merge_window_cases [⟨1, 1, 2, 1, 2, 5⟩, ⟨2, 2, 3, 2, 3, 6⟩]
      ⟨2, 9, 9, 9, 9, 9⟩ ⟨2, 2, 3, 2, 3, 6⟩ rfl hsorted).2.1 rfl).2.2
  · exact (merge_window_cases [⟨1, 1, 2, 1, 2, 5⟩, ⟨2, 2, 3, 2, 3, 6⟩]
      ⟨1, 9, 9, 9, 9, 9⟩ ⟨2, 2, 3, 2, 3, 6⟩ rfl hsorted).2.2 (by norm_num)

theorem getStrategy_fresh (l : List StrategyRec) (sid : String)
    (h : ∀ s ∈ l, s.id ≠ sid) : getStrategy l sid = none := by
  induction l with
  | nil => rfl
  | cons s rest ih =>
    have hs : (s.id == sid) = false := by
      simp [h s (List.mem_cons_self s rest)]
    simp only [getStrategy, List.find?_cons, hs]
    exact ih (fun t ht => h t (List.mem_cons_of_mem s ht))

/-- C9: round-trip of strategy persistence.  The generated id
(`str(uuid.uuid4())[:8]`) is modelled as a parameter assumed fresh (not
already present).  `add_strategy` then `get_strategy` returns a record with
the given name/description/code and status "active"; `delete_strategy` on
that id returns `true` and a subsequent `get_strategy` returns `none`. -/
theorem add_get_delete_roundtrip (write : WriteFun)
    (strategies : List StrategyRec) (sid name description code ts : String)
    (hfresh : ∀ s ∈ strategies, s.id ≠ sid) :
    addStrategy write strategies sid name description code ts
      = Except.ok (strategies ++ [⟨sid, name, description, code, ts, "active"⟩], sid)
    ∧ getStrategy (strategies ++ [⟨sid, name, description, code, ts, "active"⟩]) sid
      = some ⟨sid, name, description, code, ts, "active"⟩
    ∧ deleteStrategy write (strategies ++ [⟨sid, name, description, code, ts, "active"⟩]) sid
      = Except.ok (strategies, true)
    ∧ getStrategy strategies sid = none := by
  have hfilter : (strategies ++ [(⟨sid, name, description, code, ts, "active"⟩ : StrategyRec)]).filter
      (fun s => s.id != sid) = strategies := by
    rw [List.filter_append]
    have h1 : strategies.filter (fun s => s.id != sid) = strategies := by
      apply List.filter_eq_self.mpr
      intro s hs
      simp [hfresh s hs]
    have h2 : ([(⟨sid, name, description, code, ts, "active"⟩ : StrategyRec)]).filter
        (fun s => s.id != sid) = [] := by
      simp [List.filter]
    rw [h1, h2, List.append_nil]
  refine ⟨?_, ?_, ?_, getStrategy_fresh strategies sid hfresh⟩
  · simp [addStrategy, saveStrategies_ok]
  · show (strategies ++ [(⟨sid, name, description, code, ts, "active"⟩ : StrategyRec)]).find?
      (fun s => s.id == sid) = some ⟨sid, name, description, code, ts, "active"⟩
    rw [List.find?_append]
    have hA : strategies.find? (fun s => s.id == sid) = none :=
      getStrategy_fresh strategies sid hfresh
    rw [hA]
    simp [List.find?_cons]
  · have hlen : ((strategies ++ [(⟨sid, name, description, code, ts, "active"⟩ : StrategyRec)]).filter
        (fun s => s.id != sid)).length
        < (strategies ++ [(⟨sid, name, description, code, ts, "active"⟩ : StrategyRec)]).length := by
      rw [hfilter]
      simp
    simp [deleteStrategy, hfilter, hlen, saveStrategies_ok]

theorem setStatusFirst_spec (l : List StrategyRec) (sid st : String)
    (h : ∃ s0 ∈ l, s0.id = sid) :
    ∃ s0 ∈ l, s0.id = sid
      ∧ getStrategy (setStatusFirst l sid st) sid = some { s0 with status := st } := by
  induction l with
  | nil =>
    obtain ⟨s0, hs0, _⟩ := h
    cases hs0
  | cons s rest ih =>
    by_cases hs : s.id = sid
    · refine ⟨s, List.mem_cons_self s rest, hs, ?_⟩
      simp only [setStatusFirst, if_pos hs]
      unfold getStrategy
      rw [List.find?_cons]
      simp [hs]
    · obtain ⟨s0, hs0mem, hs0id⟩ := h
      have hs0tail : s0 ∈ rest := by
        cases List.mem_cons.mp hs0mem with
        | inl he => exact absurd (he ▸ hs0id) hs
        | inr ht => exact ht
      obtain ⟨t0, ht0mem, ht0id, ht0get⟩ := ih ⟨s0, hs0tail, hs0id⟩
      refine ⟨t0, List.mem_cons_of_mem s ht0mem, ht0id, ?_⟩
      simp only [setStatusFirst, if_neg hs]
      unfold getStrategy at ht0get ⊢
      rw [List.find?_cons]
      have : (s.id == sid) = false := by simp [hs]
      rw [this]
      exact ht0get

theorem setStatusFirst_active_iff (l : List StrategyRec) (sid st : String)
    (hnodup : (l.map StrategyRec.id).Nodup)
    (h : ∃ s0 ∈ l, s0.id = sid) :
    (∃ t ∈ getActiveStrategies (setStatusFirst l sid st), t.id = sid)
      ↔ st = "active" := by
  induction l with
  | nil =>
    obtain ⟨s0, hs0, _⟩ := h
    cases hs0
  | cons s rest ih =>
    rw [List.map_cons, List.nodup_cons] at hnodup
    obtain ⟨hsnot, hnodup2⟩ := hnodup
    by_cases hs : s.id = sid
    · simp only [setStatusFirst, if_pos hs]
      unfold getActiveStrategies
      rw [List.filter_cons]
      constructor
      · rintro ⟨t, htmem, htid⟩
        by_cases hst : st = "active"
        · exact hst
        · have hpx : (({ s with status := st } : StrategyRec).status == "active") = false := by
            simp [hst]
          rw [hpx] at htmem
          simp only [Bool.false_eq_true, reduceIte] at htmem
          have htrest : t ∈ rest := List.mem_of_mem_filter htmem
          have hmem : s.id ∈ List.map StrategyRec.id rest := by
            rw [hs, ← htid]
            exact List.mem_map_of_mem StrategyRec.id htrest
          exact absurd hmem hsnot
      · intro hst
        have hpx : (({ s with status := st } : StrategyRec).status == "active") = true := by
          simp [hst]
        rw [hpx]
        exact ⟨{ s with status := st }, by simp, hs⟩
    · simp only [setStatusFirst, if_neg hs]
      have htail : ∃ s0 ∈ rest, s0.id = sid := by
        obtain ⟨s0, hs0mem, hs0id⟩ := h
        cases List.mem_cons.mp hs0mem with
        | inl he => exact absurd (he ▸ hs0id) hs
        | inr ht => exact ⟨s0, ht, hs0id⟩
      rw [← ih hnodup2 htail]
      unfold getActiveStrategies
      rw [List.filter_cons]
      by_cases hact : (s.status == "active") = true
      · rw [hact]
        simp only [if_pos]
        constructor
        · rintro ⟨t, htmem, htid⟩
          cases List.mem_cons.mp htmem with
          | inl he => exact absurd (he ▸ htid) hs
          | inr ht => exact ⟨t, ht, htid⟩
        · rintro ⟨t, htmem, htid⟩
          exact ⟨t, List.mem_cons_of_mem _ htmem, htid⟩
      · rw [Bool.eq_false_iff.mpr hact]
        simp only [Bool.false_eq_true, reduceIte]

/-- C10: `toggle_strategy` does not validate its status argument.  If some
stored record has the given id, it returns `true` and stores `new_status`
verbatim as that record's status, and `get_active_strategies` includes that
id exactly when `new_status` is the string "active"; if no record has the
id, it returns `false` with the list unchanged. -/
theorem toggle_no_validation (write : WriteFun) (strategies : List StrategyRec)
    (sid new_status : String)
    (hnodup : (strategies.map StrategyRec.id).Nodup) :
    ((∃ s0 ∈ strategies, s0.id = sid) →
      toggleStrategy write strategies sid new_status
          = Except.ok (setStatusFirst strategies sid new_status, true)
      ∧ (∃ s0 ∈ strategies, s0.id = sid
          ∧ getStrategy (setStatusFirst strategies sid new_status) sid
              = some { s0 with status := new_status })
      ∧ ((∃ t ∈ getActiveStrategies (setStatusFirst strategies sid new_status), t.id = sid)
          ↔ new_status = "active"))
    ∧ ((∀ s ∈ strategies, s.id ≠ sid) →
      toggleStrategy write strategies sid new_status = Except.ok (strategies, false)) := by
  constructor
  · intro h
    have hany : (strategies.any fun s => s.id == sid) = true := by
      rw [List.any_eq_true]
      obtain ⟨s0, hs0mem, hs0id⟩ := h
      exact ⟨s0, hs0mem, by simp [hs0id]⟩
    refine ⟨by simp [toggleStrategy, hany, saveStrategies_ok], ?_, ?_⟩
    · exact setStatusFirst_spec strategies sid new_status h
    · exact setStatusFirst_active_iff strategies sid new_status hnodup h
  · intro h
    have hany : (strategies.any fun s => s.id == sid) = false := by
      rw [List.any_eq_false]
      intro s hs
      simp [h s hs]
    simp [toggleStrategy, hany]

/-- C10 witness at a concrete store and a non-standard status string. -/
theorem toggle_no_validation_witness :
    toggleStrategy (fun _ => Except.ok ()) [⟨"id1", "n", "d", "c", "t", "active"⟩]
        "id1" "banana"
      = Except.ok ([⟨"id1", "n", "d", "c", "t", "banana"⟩], true)
    ∧ ((∃ t ∈ getActiveStrategies [(⟨"id1", "n", "d", "c", "t", "banana"⟩ : StrategyRec)],
        t.id = "id1") ↔ ("banana" : String) = "active")
    ∧ toggleStrategy (fun _ => Except.ok ()) [⟨"id1", "n", "d", "c", "t", "active"⟩]
        "zzz" "inactive"
      = Except.ok ([⟨"id1", "n", "d", "c", "t", "active"⟩], false) := by
  have h := toggle_no_validation (fun _ => Except.ok ())
    [⟨"id1", "n", "d", "c", "t", "active"⟩] "id1" "banana" (by simp)
  have h1 := h.1 ⟨⟨"id1", "n", "d", "c", "t", "active"⟩, by simp, rfl⟩
  have h2 := toggle_no_validation (fun _ => Except.ok ())
    [⟨"id1", "n", "d", "c", "t", "active"⟩] "zzz" "inactive" (by simp)
  refine ⟨?_, ?_, ?_⟩
  · have := h1.1
    simpa [setStatusFirst] using this
  · have := h1.2.2
    simpa [setStatusFirst] using this
  · exact h2.2 (by simp)

theorem evalPair_failing (strategies : List StrategyRec) (now stock_code : String)
    (snapshot : Bar) (eval_df : List Bar) (a_id : String) (fA : MonStrat)
    (hA : (∃ e, fA eval_df = Except.error e) ∨ fA eval_df = Except.ok none) :
    evalPair strategies now stock_code snapshot eval_df a_id fA = none := by
  cases hA with
  | inl h =>
    obtain ⟨e, he⟩ := h
    simp [evalPair, he]
  | inr h => simp [evalPair, h]

theorem stockAlerts_failing (strategies : List StrategyRec) (now : String)
    (pre post : List (String × MonStrat)) (a_id : String) (fA : MonStrat)
    (stock_code : String) (snapshot : Bar) (eval_df : List Bar)
    (hA : ∀ w, (∃ e, fA w = Except.error e) ∨ fA w = Except.ok none) :
    stockAlerts strategies now (pre ++ (a_id, fA) :: post) stock_code snapshot eval_df
      = stockAlerts strategies now (pre ++ post) stock_code snapshot eval_df := by
  unfold stockAlerts
  rw [List.filterMap_append, List.filterMap_append, List.filterMap_cons]
  rw [evalPair_failing strategies now stock_code snapshot eval_df a_id fA (hA eval_df)]

/-- C4: per-pair failure isolation in a tick.  If a compiled strategy raises
(or returns a non-Series value) on every input, the alert list of the tick
equals the alert list computed without that strategy: its failures contribute
nothing for its own pairs and leave every other pair's alerts unchanged. -/
theorem failing_strategy_isolated (strategies : List StrategyRec)
    (pre post : List (String × MonStrat)) (a_id : String) (fA : MonStrat)
    (history_cache : List (String × List Bar))
    (realtime_data : List (String × Bar)) (now : String)
    (hA : ∀ w, (∃ e, fA w = Except.error e) ∨ fA w = Except.ok none) :
    (runOnce strategies (pre ++ (a_id, fA) :: post) history_cache realtime_data now).alerts
      = (runOnce strategies (pre ++ post) history_cache realtime_data now).alerts := by
  have hne : (pre ++ (a_id, fA) :: post).isEmpty = false := by
    simp [List.isEmpty_iff]
  by_cases hc : history_cache.isEmpty
  · simp [runOnce, hne, hc]
  · have hcf : history_cache.isEmpty = false := Bool.eq_false_iff.mpr hc
    have hleft : (runOnce strategies (pre ++ (a_id, fA) :: post) history_cache realtime_data now).alerts
        = (realtime_data.map (fun p =>
            match lookupCache history_cache p.1 with
            | none => []
            | some hist_df => stockAlerts strategies now (pre ++ (a_id, fA) :: post) p.1 p.2
                (mergeWindow hist_df p.2))).flatten := by
      simp [runOnce, hne, hcf]
    rw [hleft]
    by_cases hpp : (pre ++ post).isEmpty
    · have hright : (runOnce strategies (pre ++ post) history_cache realtime_data now).alerts
          = [] := by
        simp [runOnce, hpp]
      rw [hright, List.flatten_eq_nil_iff]
      intro xs hxs
      rw [List.mem_map] at hxs
      obtain ⟨p, hp, rfl⟩ := hxs
      have hppnil : pre ++ post = [] := List.isEmpty_iff.mp hpp
      cases hlk : lookupCache history_cache p.1 with
      | none => rfl
      | some hist_df =>
        show stockAlerts strategies now (pre ++ (a_id, fA) :: post) p.1 p.2
          (mergeWindow hist_df p.2) = []
        rw [stockAlerts_failing strategies now pre post a_id fA p.1 p.2
          (mergeWindow hist_df p.2) hA, hppnil]
        rfl
    · have hppf : (pre ++ post).isEmpty = false := Bool.eq_false_iff.mpr hpp
      have hright : (runOnce strategies (pre ++ post) history_cache realtime_data now).alerts
          = (realtime_data.map (fun p =>
              match lookupCache history_cache p.1 with
              | none => []
              | some hist_df => stockAlerts strategies now (pre ++ post) p.1 p.2
                  (mergeWindow hist_df p.2))).flatten := by
        simp [runOnce, hppf, hcf]
      rw [hright]
      congr 1
      apply List.map_congr_left
      intro p hp
      cases hlk : lookupCache history_cache p.1 with
      | none => rfl
      | some hist_df =>
        show stockAlerts strategies now (pre ++ (a_id, fA) :: post) p.1 p.2
            (mergeWindow hist_df p.2)
          = stockAlerts strategies now (pre ++ post) p.1 p.2 (mergeWindow hist_df p.2)
        exact stockAlerts_failing strategies now pre post a_id fA p.1 p.2
          (mergeWindow hist_df p.2) hA

/-- C4 witness: a concrete tick where strategy "A" always raises and
strategy "B" always signals 1; removing A leaves B's alerts unchanged. -/
theorem failing_strategy_isolated_witness :
    (∀ w : List Bar, (∃ e, (fun _ : List Bar => (Except.error "boom" : Except String (Option (List ℚ)))) w = Except.error e)
       ∨ (fun _ : List Bar => (Except.error "boom" : Except String (Option (List ℚ)))) w = Except.ok none)
    ∧ (runOnce [⟨"B", "nb", "d", "c", "t", "active"⟩]
        ([] ++ ("A", fun _ => Except.error "boom")
          :: [("B", fun _ => Except.ok (some [1]))])
        [("s1", [⟨1, 1, 1, 1, 1, 1⟩])] [("s1", ⟨2, 2, 2, 2, 2, 2⟩)] "09:00").alerts
      = (runOnce [⟨"B", "nb", "d", "c", "t", "active"⟩]
        ([] ++ [("B", fun _ => Except.ok (some [1]))])
        [("s1", [⟨1, 1, 1, 1, 1, 1⟩])] [("s1", ⟨2, 2, 2, 2, 2, 2⟩)] "09:00").alerts := by
  refine ⟨fun w => Or.inl ⟨"boom", rfl⟩, ?_⟩
  exact failing_strategy_isolated [⟨"B", "nb", "d", "c", "t", "active"⟩]
    [] [("B", fun _ => Except.ok (some [1]))] "A" (fun _ => Except.error "boom")
    [("s1", [⟨1, 1, 1, 1, 1, 1⟩])] [("s1", ⟨2, 2, 2, 2, 2, 2⟩)] "09:00"
    (fun w => Or.inl ⟨"boom", rfl⟩)

/-- C5: in a tick, a pair whose strategy returns a (non-empty) Series and
whose id resolves in the manager produces an alert exactly when the final
signal equals 1 — a level trigger with no dependence on any previous tick's
state — and `_send_alerts` is invoked exactly when the batch of the tick is
non-empty. -/
theorem alert_level_trigger_and_dispatch (strategies : List StrategyRec)
    (now stock_code : String) (snapshot : Bar) (eval_df : List Bar)
    (s_id : String) (strategy_func : MonStrat) (signals : List ℚ)
    (strategy_info : StrategyRec)
    (compiled : List (String × MonStrat)) (history_cache : List (String × List Bar))
    (realtime_data : List (String × Bar))
    (hf : strategy_func eval_df = Except.ok (some signals))
    (hne : signals ≠ [])
    (hinfo : getStrategy strategies s_id = some strategy_info) :
    (evalPair strategies now stock_code snapshot eval_df s_id strategy_func
        = some (Alert.mk stock_code snapshot.close strategy_info.name "BUY" now)
      ↔ signals.getLast? = some 1)
    ∧ ((runOnce strategies compiled history_cache realtime_data now).dispatched = true
      ↔ (runOnce strategies compiled history_cache realtime_data now).alerts ≠ []) := by
  constructor
  · have hemp : signals.isEmpty = false := by
      cases signals with
      | nil => exact absurd rfl hne
      | cons a t => rfl
    obtain ⟨lastv, hlast⟩ : ∃ a, signals.getLast? = some a :=
      ⟨signals.getLast hne, List.getLast?_eq_getLast signals hne⟩
    simp only [evalPair, hf, hemp, Bool.false_eq_true, reduceIte, hlast, hinfo]
    by_cases hv : lastv = 1
    · simp [hv]
    · simp [hv]
  · unfold runOnce
    by_cases h1 : compiled.isEmpty
    · simp [h1]
    · by_cases h2 : history_cache.isEmpty
      · simp [Bool.eq_false_iff.mpr h1, h2]
      · simp only [Bool.eq_false_iff.mpr h1, Bool.eq_false_iff.mpr h2,
          Bool.false_eq_true, reduceIte]
        constructor
        · intro h
          exact fun hcon => by simp [hcon] at h
        · intro h
          simpa [List.isEmpty_iff] using h

/-- C5 witness: one concrete pair alerting on last signal 1, one concrete
pair with last signal 0 producing no alert, and the dispatch equivalence at
a concrete tick. -/
theorem alert_level_trigger_and_dispatch_witness :
    (evalPair [⟨"B", "nb", "d", "c", "t", "active"⟩] "09:00" "s1" ⟨2, 2, 2, 2, 7, 2⟩
        [⟨1, 1, 1, 1, 1, 1⟩] "B" (fun _ => Except.ok (some [0, 1]))
      = some (Alert.mk "s1" 7 "nb" "BUY" "09:00"))
    ∧ (evalPair [⟨"B", "nb", "d", "c", "t", "active"⟩] "09:00" "s1" ⟨2, 2, 2, 2, 7, 2⟩
        [⟨1, 1, 1, 1, 1, 1⟩] "B" (fun _ => Except.ok (some [1, 0]))
      ≠ some (Alert.mk "s1" 7 "nb" "BUY" "09:00"))
    ∧ ((runOnce [⟨"B", "nb", "d", "c", "t", "active"⟩]
        [("B", fun _ => Except.ok (some [1]))]
        [("s1", [⟨1, 1, 1, 1, 1, 1⟩])] [("s1", ⟨2, 2, 2, 2, 7, 2⟩)] "09:00").dispatched = true
      ↔ (runOnce [⟨"B", "nb", "d", "c", "t", "active"⟩]
        [("B", fun _ => Except.ok (some [1]))]
        [("s1", [⟨1, 1, 1, 1, 1, 1⟩])] [("s1", ⟨2, 2, 2, 2, 7, 2⟩)] "09:00").alerts ≠ []) := by
  have h1 := alert_level_trigger_and_dispatch [⟨"B", "nb", "d", "c", "t", "active"⟩]
    "09:00" "s1" ⟨2, 2, 2, 2, 7, 2⟩ [⟨1, 1, 1, 1, 1, 1⟩] "B"
    (fun _ => Except.ok (some [0, 1])) [0, 1] ⟨"B", "nb", "d", "c", "t", "active"⟩
    [("B", fun _ => Except.ok (some [1]))] [("s1", [⟨1, 1, 1, 1, 1, 1⟩])]
    [("s1", ⟨2, 2, 2, 2, 7, 2⟩)] rfl (by simp) rfl
  have h2 := alert_level_trigger_and_dispatch [⟨"B", "nb", "d", "c", "t", "active"⟩]
    "09:00" "s1" ⟨2, 2, 2, 2, 7, 2⟩ [⟨1, 1, 1, 1, 1, 1⟩] "B"
    (fun _ => Except.ok (some [1, 0])) [1, 0] ⟨"B", "nb", "d", "c", "t", "active"⟩
    [("B", fun _ => Except.ok (some [1]))] [("s1", [⟨1, 1, 1, 1, 1, 1⟩])]
    [("s1", ⟨2, 2, 2, 2, 7, 2⟩)] rfl (by simp) rfl
  refine ⟨h1.1.mpr (by norm_num), ?_, h1.2⟩
  intro hcon
  have := h2.1.mp hcon
  simp at this

/-- C9 witness at a concrete store with one unrelated record. -/
theorem add_get_delete_roundtrip_witness :
    (∀ s ∈ [(⟨"zzz", "n0", "d0", "c0", "t0", "active"⟩ : StrategyRec)], s.id ≠ "abc12345")
    ∧ addStrategy (fun _ => Except.ok ()) [⟨"zzz", "n0", "d0", "c0", "t0", "active"⟩]
        "abc12345" "n" "d" "c" "t"
      = Except.ok ([⟨"zzz", "n0", "d0", "c0", "t0", "active"⟩,
          ⟨"abc12345", "n", "d", "c", "t", "active"⟩], "abc12345")
    ∧ getStrategy [⟨"zzz", "n0", "d0", "c0", "t0", "active"⟩,
          ⟨"abc12345", "n", "d", "c", "t", "active"⟩] "abc12345"
      = some ⟨"abc12345", "n", "d", "c", "t", "active"⟩
    ∧ deleteStrategy (fun _ => Except.ok ()) [⟨"zzz", "n0", "d0", "c0", "t0", "active"⟩,
          ⟨"abc12345", "n", "d", "c", "t", "active"⟩] "abc12345"
      = Except.ok ([⟨"zzz", "n0", "d0", "c0", "t0", "active"⟩], true)
    ∧ getStrategy [(⟨"zzz", "n0", "d0", "c0", "t0", "active"⟩ : StrategyRec)] "abc12345"
      = none := by
  have hfresh : ∀ s ∈ [(⟨"zzz", "n0", "d0", "c0", "t0", "active"⟩ : StrategyRec)],
      s.id ≠ "abc12345" := by simp
  have h := add_get_delete_roundtrip (fun _ => Except.ok ())
    [⟨"zzz", "n0", "d0", "c0", "t0", "active"⟩] "abc12345" "n" "d" "c" "t" hfresh
  exact ⟨hfresh, h.1, h.2.1, h.2.2.1, h.2.2.2⟩

/-! ### Frame-effect lemmas for the store-level embedding -/

theorem breadF_append (st : BStore) (f : ColFrame) (r : ℕ) (h : r < st.length) :
    breadF (st ++ [f]) r = breadF st r := by
  simp [breadF, List.getD, List.getElem?_append, h]

theorem breadF_set_ne (st : BStore) (i j : ℕ) (f : ColFrame) (h : j ≠ i) :
    breadF (st.set i f) j = breadF st j := by
  simp [breadF, List.getD, List.getElem?_set_ne (fun hc => h hc.symm)]

theorem bwriteCol_other (st : BStore) (i j : ℕ) (name : String) (v : List ℚ)
    (h : j ≠ i) : breadF (bwriteCol st i name v) j = breadF st j :=
  breadF_set_ne st i j _ h

theorem wreadF_append (st : WStore) (w : List Bar) (r : ℕ) (h : r < st.length) :
    wreadF (st ++ [w]) r = wreadF st r := by
  simp [wreadF, List.getD, List.getElem?_append, h]

theorem wreadF_set_ne (st : WStore) (i j : ℕ) (w : List Bar) (h : j ≠ i) :
    wreadF (st.set i w) j = wreadF st j := by
  simp [wreadF, List.getD, List.getElem?_set_ne (fun hc => h hc.symm)]

theorem watLastSet_other (st : WStore) (i j : ℕ) (s : Bar) (col : String)
    (h : j ≠ i) : wreadF (watLastSet st i s col) j = wreadF st j :=
  wreadF_set_ne st i j _ h

theorem bwriteCol_length (st : BStore) (i : ℕ) (name : String) (v : List ℚ) :
    (bwriteCol st i name v).length = st.length := by
  simp [bwriteCol]

theorem watLastSet_length (st : WStore) (i : ℕ) (s : Bar) (col : String) :
    (watLastSet st i s col).length = st.length := by
  simp [watLastSet, wwriteF]

/-- C8: neither the backtest run nor the window merge mutates the caller's
frame.  In the store-level embedding, after `runST` the frame referenced by
the caller's `dfRef` is unchanged (the engine works only on the `df.copy()`
allocation), and after `mergeST` the cached window referenced by `histRef`
is unchanged (the `==` branch performs its `.at` writes only on the
`hist_df.copy()` allocation). -/
theorem no_mutation_of_caller_frames
    (strategy_func : ColFrame → Except String (List ℚ)) (st : BStore) (dfRef : ℕ)
    (initial_capital commission : ℚ)
    (wst : WStore) (histRef : ℕ) (snapshot : Bar)
    (hdf : dfRef < st.length) (hhist : histRef < wst.length) :
    breadF (runST strategy_func st dfRef initial_capital commission).1 dfRef
      = breadF st dfRef
    ∧ wreadF (mergeST wst histRef snapshot).1 histRef = wreadF wst histRef := by
  constructor
  · have hne : dfRef ≠ st.length := by omega
    have hbase : breadF (st ++ [breadF st dfRef]) dfRef = breadF st dfRef :=
      breadF_append st _ dfRef hdf
    simp only [runST, ballocF]
    split
    · exact hbase
    · split
      · exact hbase
      · split <;>
        · simp only [bwriteCol_other _ st.length dfRef _ _ hne, hbase]
  · have hne : histRef ≠ wst.length := by omega
    have hbase : ∀ w, wreadF (wst ++ [w]) histRef = wreadF wst histRef :=
      fun w => wreadF_append wst w histRef hhist
    simp only [mergeST, wallocF]
    split
    · rfl
    · split
      · exact hbase _
      · split
        · simp only [watLastSet_other _ wst.length histRef _ _ hne, hbase]
        · exact hbase _

/-- C8 witness at a concrete store, frame and window. -/
theorem no_mutation_of_caller_frames_witness :
    (0 : ℕ) < ([[("close", [(5 : ℚ)])]] : BStore).length
    ∧ breadF (runST (fun _ => Except.ok [1]) [[("close", [(5 : ℚ)])]] 0 100000 0).1 0
      = [("close", [(5 : ℚ)])]
    ∧ wreadF (mergeST [[⟨1, 1, 1, 1, 1, 1⟩]] 0 ⟨1, 9, 9, 9, 9, 9⟩).1 0
      = [⟨1, 1, 1, 1, 1, 1⟩] := by
  have h := no_mutation_of_caller_frames (fun _ => Except.ok [1])
    [[("close", [(5 : ℚ)])]] 0 100000 0 [[⟨1, 1, 1, 1, 1, 1⟩]] 0 ⟨1, 9, 9, 9, 9, 9⟩
    (by simp) (by simp)
  refine ⟨by simp, ?_, ?_⟩
  · rw [h.1]
    rfl
  · rw [h.2]
    rfl

/-! ### Lemmas for the monotone-increase backtest property -/

theorem shift1_fillna0_ne_nil (l : List ℚ) (h : l ≠ []) :
    shift1_fillna0 l = 0 :: l.dropLast := by
  cases l with
  | nil => exact absurd rfl h
  | cons a t => rfl

theorem pctChangeAux_length (p : ℚ) (l : List ℚ) :
    (pctChangeAux p l).length = l.length := by
  induction l generalizing p with
  | nil => rfl
  | cons x xs ih => simp [pctChangeAux, ih]

theorem pctChangeAux_pos (l : List ℚ) (p : ℚ) (hp : 0 < p)
    (hc : List.Chain' (· < ·) (p :: l)) :
    ∀ y ∈ pctChangeAux p l, 0 < y := by
  induction l generalizing p with
  | nil => intro y hy; simp [pctChangeAux] at hy
  | cons x xs ih =>
    rw [List.chain'_cons] at hc
    obtain ⟨hpx, hc2⟩ := hc
    intro y hy
    simp only [pctChangeAux, List.mem_cons] at hy
    cases hy with
    | inl he =>
      rw [he]
      have : 1 < x / p := (one_lt_div hp).mpr hpx
      linarith
    | inr ht => exact ih x (hp.trans hpx) hc2 y ht

theorem zipWith_replicate_one_mul (r : List ℚ) :
    List.zipWith (· * ·) (List.replicate r.length 1) r = r := by
  induction r with
  | nil => rfl
  | cons x xs ih => simp [List.replicate_succ, ih]

theorem zipWith_sub_replicate_zero (a : List ℚ) (k : ℕ) (h : a.length ≤ k) :
    List.zipWith (· - ·) a (List.replicate k 0) = a := by
  induction a generalizing k with
  | nil => rfl
  | cons x xs ih =>
    cases k with
    | zero => simp at h
    | succ k2 =>
      simp only [List.replicate_succ, List.zipWith_cons_cons, sub_zero]
      rw [ih k2 (by simpa using h)]

theorem cumprodAux_length (acc : ℚ) (l : List ℚ) :
    (cumprodAux acc l).length = l.length := by
  induction l generalizing acc with
  | nil => rfl
  | cons x xs ih => simp [cumprodAux, ih]

theorem cumprodAux_ne_nil (acc : ℚ) (l : List ℚ) (h : l ≠ []) :
    cumprodAux acc l ≠ [] := by
  intro hc
  have := cumprodAux_length acc l
  rw [hc] at this
  exact h (List.length_eq_zero.mp this.symm)

theorem cumprodAux_getLast? (l : List ℚ) (acc : ℚ) (h : l ≠ []) :
    (cumprodAux acc l).getLast? = some (acc * l.prod) := by
  induction l generalizing acc with
  | nil => exact absurd rfl h
  | cons x xs ih =>
    cases xs with
    | nil => simp [cumprodAux]
    | cons y ys =>
      rw [show cumprodAux acc (x :: y :: ys) = (acc * x) :: cumprodAux (acc * x) (y :: ys) from rfl,
        getLast?_cons_of_ne _ _ (cumprodAux_ne_nil (acc * x) (y :: ys) (by simp)),
        ih (acc * x) (by simp)]
      simp [List.prod_cons, mul_assoc]

theorem cumprodAux_chain (l : List ℚ) (acc : ℚ) (hacc : 0 < acc)
    (h1 : ∀ x ∈ l, 1 ≤ x) :
    List.Chain' (· ≤ ·) (acc :: cumprodAux acc l)
    ∧ ∀ y ∈ cumprodAux acc l, 0 < y := by
  induction l generalizing acc with
  | nil => exact ⟨List.chain'_singleton acc, by simp [cumprodAux]⟩
  | cons x xs ih =>
    have hx1 : 1 ≤ x := h1 x (List.mem_cons_self x xs)
    have hstep : acc ≤ acc * x := le_mul_of_one_le_right hacc.le hx1
    have hpos2 : 0 < acc * x := mul_pos hacc (lt_of_lt_of_le one_pos hx1)
    obtain ⟨hch, hpos⟩ := ih (acc * x) hpos2
      (fun y hy => h1 y (List.mem_cons_of_mem x hy))
    constructor
    · rw [show cumprodAux acc (x :: xs) = (acc * x) :: cumprodAux (acc * x) xs from rfl,
        List.chain'_cons]
      exact ⟨hstep, hch⟩
    · intro y hy
      rw [show cumprodAux acc (x :: xs) = (acc * x) :: cumprodAux (acc * x) xs from rfl] at hy
      cases List.mem_cons.mp hy with
      | inl he => exact he ▸ hpos2
      | inr ht => exact hpos y ht

theorem expandingMaxAux_of_chain (l : List ℚ) (m : ℚ)
    (h : List.Chain' (· ≤ ·) (m :: l)) : expandingMaxAux m l = l := by
  induction l generalizing m with
  | nil => rfl
  | cons x xs ih =>
    rw [List.chain'_cons] at h
    obtain ⟨hmx, h2⟩ := h
    simp only [expandingMaxAux, max_eq_right hmx]
    rw [ih x h2]

theorem expandingMax_of_chain (l : List ℚ) (h : List.Chain' (· ≤ ·) l) :
    expandingMax l = l := by
  cases l with
  | nil => rfl
  | cons a t =>
    simp only [expandingMax]
    rw [expandingMaxAux_of_chain t a h]

theorem zipWith_drawdown_self (l : List ℚ) :
    List.zipWith (fun e m => (e - m) / m) l l = l.map (fun _ => (0 : ℚ)) := by
  induction l with
  | nil => rfl
  | cons x xs ih => simp [ih]

theorem foldl_min_zero (k : ℕ) :
    List.foldl min (0 : ℚ) (List.replicate k 0) = 0 := by
  induction k with
  | zero => rfl
  | succ k2 ih => simpa [List.replicate_succ, min_self] using ih

theorem seriesMin_zeros (l : List ℚ) (h : l ≠ []) :
    seriesMin (l.map fun _ => (0 : ℚ)) = some 0 := by
  cases l with
  | nil => exact absurd rfl h
  | cons x xs => simp [seriesMin, foldl_min_zero]

theorem one_lt_list_prod (l : List ℚ) (h : ∀ x ∈ l, 1 < x) (hne : l ≠ []) :
    1 < l.prod := by
  induction l with
  | nil => exact absurd rfl hne
  | cons x xs ih =>
    rw [List.prod_cons]
    have hx : 1 < x := h x (List.mem_cons_self x xs)
    cases xs with
    | nil => simpa using hx
    | cons y ys =>
      have hprod : 1 < (y :: ys).prod :=
        ih (fun z hz => h z (List.mem_cons_of_mem x hz)) (by simp)
      calc (1 : ℚ) < x := hx
        _ = x * 1 := (mul_one x).symm
        _ < x * (y :: ys).prod :=
            mul_lt_mul_of_pos_left hprod (lt_trans one_pos hx)

theorem calculateMetrics_flat_drawdown (net equity pos : List ℚ)
    (initial_capital eLast : ℚ)
    (hlast : equity.getLast? = some eLast)
    (hchain : List.Chain' (· ≤ ·) equity) :
    ∃ W, calculateMetrics net equity pos initial_capital
      = Except.ok ⟨(eLast - initial_capital) / initial_capital, 0, W⟩ := by
  have hne : equity ≠ [] := by
    intro hc
    rw [hc] at hlast
    simp at hlast
  have hiloc : ilocLast equity = Except.ok eLast := by
    simp [ilocLast, hlast]
  simp only [calculateMetrics, hiloc]
  rw [expandingMax_of_chain equity hchain, zipWith_drawdown_self,
    seriesMin_zeros equity hne]
  simp only [Option.getD_some]
  exact ⟨_, rfl⟩

theorem diffAbsAux_length (p : ℚ) (l : List ℚ) :
    (diffAbsAux p l).length = l.length := by
  induction l generalizing p with
  | nil => rfl
  | cons x xs ih => simp [diffAbsAux, ih]

theorem diff_abs_fillna0_length (l : List ℚ) :
    (diff_abs_fillna0 l).length = l.length := by
  cases l with
  | nil => rfl
  | cons a rest => simp [diff_abs_fillna0, diffAbsAux_length]

/-- C6 (amended): for a price series with positive, strictly increasing
closes, an always-long (constant 1) signal, at least two bars, and zero
commission, `VectorBacktester.run` returns statistics with
`total_return > 0` and `max_drawdown = 0`. -/
theorem monotone_long_zero_commission (strategy_func : StratFun) (df : BTInput)
    (initial_capital : ℚ)
    (hcols : requiredColsOk df = true)
    (hchain : List.Chain' (· < ·) (df.rows.map Bar.close))
    (hposc : ∀ x ∈ df.rows.map Bar.close, 0 < x)
    (hn : 2 ≤ df.rows.length)
    (hsig : strategy_func df.rows = Except.ok (List.replicate df.rows.length 1))
    (hcap : 0 < initial_capital) :
    ∃ stats, run strategy_func df initial_capital 0 = BTResult.ok stats
      ∧ 0 < stats.total_return ∧ stats.max_drawdown = 0 := by
  obtain ⟨m, hm⟩ : ∃ m, df.rows.length = m + 1 := ⟨df.rows.length - 1, by omega⟩
  have hm1 : 1 ≤ m := by omega
  obtain ⟨c, cs, hcl⟩ : ∃ c cs, df.rows.map Bar.close = c :: cs := by
    cases hx : df.rows.map Bar.close with
    | nil =>
      exfalso
      have h0 : (df.rows.map Bar.close).length = 0 := by rw [hx]; rfl
      rw [List.length_map] at h0
      omega
    | cons c cs => exact ⟨c, cs, rfl⟩
  have hcs_len : cs.length = m := by
    have := congrArg List.length hcl
    simp at this
    omega
  have hc_pos : 0 < c := hposc c (by rw [hcl]; exact List.mem_cons_self c cs)
  have hchain2 : List.Chain' (· < ·) (c :: cs) := hcl ▸ hchain
  have hr_len : (pctChangeAux c cs).length = m := by
    rw [pctChangeAux_length]; exact hcs_len
  have hr_pos : ∀ y ∈ pctChangeAux c cs, 0 < y :=
    pctChangeAux_pos cs c hc_pos hchain2
  have hr_ne : pctChangeAux c cs ≠ [] := by
    intro hc0
    have hzero : (pctChangeAux c cs).length = 0 := by rw [hc0]; rfl
    omega
  have hl2_gt : ∀ y ∈ (pctChangeAux c cs).map (fun x => 1 + x), 1 < y := by
    intro y hy
    rw [List.mem_map] at hy
    obtain ⟨x, hx, rfl⟩ := hy
    have := hr_pos x hx
    linarith
  have hl2_ne : (pctChangeAux c cs).map (fun x => 1 + x) ≠ [] := by
    simp [hr_ne]
  have hpos_col : positionCol (List.replicate (m + 1) (1 : ℚ))
      = 0 :: List.replicate m 1 := by
    rw [positionCol, shift1_fillna0_ne_nil _ (by simp), List.replicate_succ',
      List.dropLast_concat]
  have hmret : marketRetCol (df.rows.map Bar.close) = 0 :: pctChangeAux c cs := by
    rw [hcl]; rfl
  have hsret : strategyRetCol (0 :: List.replicate m (1 : ℚ)) (0 :: pctChangeAux c cs)
      = 0 :: pctChangeAux c cs := by
    rw [strategyRetCol, List.zipWith_cons_cons, zero_mul, ← hr_len,
      zipWith_replicate_one_mul]
  have htrade_len : (tradeOccurredCol (0 :: List.replicate m (1 : ℚ))).length
      = m + 1 := by
    rw [tradeOccurredCol, diff_abs_fillna0_length]
    simp
  have hcost : costCol (tradeOccurredCol (0 :: List.replicate m (1 : ℚ))) 0
      = List.replicate (m + 1) 0 := by
    rw [costCol]
    have hmz : ∀ x ∈ tradeOccurredCol (0 :: List.replicate m (1 : ℚ)),
        x * 0 = (fun _ => (0 : ℚ)) x := by
      intro x hx
      simp
    rw [List.map_congr_left hmz, List.map_const', htrade_len]
  have hnet : netRetCol (0 :: pctChangeAux c cs) (List.replicate (m + 1) 0)
      = 0 :: pctChangeAux c cs := by
    apply zipWith_sub_replicate_zero
    simp [hr_len]
  have hcumip : cumprod ((1 : ℚ) :: (pctChangeAux c cs).map (fun x => 1 + x))
      = 1 :: cumprodAux 1 ((pctChangeAux c cs).map (fun x => 1 + x)) := by
    rw [cumprod]
    show ((1 : ℚ) * 1) :: cumprodAux (1 * 1) ((pctChangeAux c cs).map (fun x => 1 + x))
      = 1 :: cumprodAux 1 ((pctChangeAux c cs).map (fun x => 1 + x))
    rw [one_mul]
  have hequity : equityCol (0 :: pctChangeAux c cs) initial_capital
      = ((1 : ℚ) :: cumprodAux 1 ((pctChangeAux c cs).map (fun x => 1 + x))).map
          (· * initial_capital) := by
    rw [equityCol, List.map_cons]
    have h10 : (1 : ℚ) + 0 = 1 := by norm_num
    rw [h10, hcumip]
  have hch1 : List.Chain' (· ≤ ·)
      ((1 : ℚ) :: cumprodAux 1 ((pctChangeAux c cs).map (fun x => 1 + x))) :=
    (cumprodAux_chain ((pctChangeAux c cs).map (fun x => 1 + x)) 1 one_pos
      (fun x hx => (hl2_gt x hx).le)).1
  have hch2 : List.Chain' (· ≤ ·)
      (((1 : ℚ) :: cumprodAux 1 ((pctChangeAux c cs).map (fun x => 1 + x))).map
        (· * initial_capital)) :=
    List.chain'_map_of_chain' _
      (fun a b hab => mul_le_mul_of_nonneg_right hab hcap.le) hch1
  have hcA_ne : cumprodAux (1 : ℚ) ((pctChangeAux c cs).map (fun x => 1 + x)) ≠ [] :=
    cumprodAux_ne_nil 1 _ hl2_ne
  have hlast0 : ((1 : ℚ) :: cumprodAux 1 ((pctChangeAux c cs).map (fun x => 1 + x))).getLast?
      = some ((pctChangeAux c cs).map (fun x => 1 + x)).prod := by
    rw [getLast?_cons_of_ne _ _ hcA_ne, cumprodAux_getLast? _ 1 hl2_ne, one_mul]
  have hlast : (((1 : ℚ) :: cumprodAux 1 ((pctChangeAux c cs).map (fun x => 1 + x))).map
        (· * initial_capital)).getLast?
      = some (((pctChangeAux c cs).map (fun x => 1 + x)).prod * initial_capital) := by
    rw [List.getLast?_map, hlast0]
    rfl
  obtain ⟨W, hW⟩ := calculateMetrics_flat_drawdown (0 :: pctChangeAux c cs)
    (((1 : ℚ) :: cumprodAux 1 ((pctChangeAux c cs).map (fun x => 1 + x))).map
      (· * initial_capital))
    (0 :: List.replicate m 1) initial_capital
    (((pctChangeAux c cs).map (fun x => 1 + x)).prod * initial_capital) hlast hch2
  have hrun : run strategy_func df initial_capital 0
      = BTResult.ok ⟨(((pctChangeAux c cs).map (fun x => 1 + x)).prod * initial_capital
          - initial_capital) / initial_capital, 0, W⟩ := by
    simp only [run, hcols, hsig, Bool.true_eq_false, reduceIte]
    rw [hm, hpos_col, hmret, hsret, hcost, hnet, hequity, hW]
  refine ⟨_, hrun, ?_, rfl⟩
  have hP : 1 < ((pctChangeAux c cs).map (fun x => 1 + x)).prod :=
    one_lt_list_prod _ hl2_gt hl2_ne
  have hmul : initial_capital
      < ((pctChangeAux c cs).map (fun x => 1 + x)).prod * initial_capital := by
    calc initial_capital = 1 * initial_capital := (one_mul _).symm
      _ < ((pctChangeAux c cs).map (fun x => 1 + x)).prod * initial_capital :=
          mul_lt_mul_of_pos_right hP hcap
  exact div_pos (by linarith) hcap

/-- C6 counterexample: with the engine's default parameters
(capital 100000, commission 0.0003) and the strictly increasing close
series [100, 100.01] with an always-long signal, the entry-bar commission
exceeds the market gain: `total_return = -1/5000 < 0` and
`max_drawdown = -1/5000 < 0`, refuting `total_return > 0` and
`max_drawdown = 0` as stated. -/
theorem monotone_long_claim_cex :
    List.Chain' (· < ·)
      ((⟨true, true, true, true,
          [⟨1, 100, 100, 100, 100, 1⟩, ⟨2, 100, 101, 100, 10001/100, 1⟩]⟩ : BTInput).rows.map
        Bar.close)
    ∧ run (fun rows => Except.ok (List.replicate rows.length 1))
        ⟨true, true, true, true,
          [⟨1, 100, 100, 100, 100, 1⟩, ⟨2, 100, 101, 100, 10001/100, 1⟩]⟩
        100000 (3/10000)
      = BTResult.ok ⟨-(1/5000), -(1/5000), 0⟩
    ∧ ¬ ((0 : ℚ) < -(1/5000))
    ∧ ¬ ((-(1/5000) : ℚ) = 0) := by
  refine ⟨?_, ?_, by norm_num, by norm_num⟩
  · simp only [List.map_cons, List.map_nil, List.chain'_cons, List.chain'_singleton,
      and_true]
    norm_num
  · simp only [run, requiredColsOk, Bool.and_self, Bool.true_eq_false, reduceIte,
      List.length_cons, List.length_nil, List.replicate, positionCol,
      shift1_fillna0, List.dropLast, marketRetCol, pct_change_fillna0,
      pctChangeAux, List.map_cons, List.map_nil, strategyRetCol,
      List.zipWith_cons_cons, List.zipWith_nil_right, List.zipWith_nil_left,
      tradeOccurredCol, diff_abs_fillna0, diffAbsAux, costCol, netRetCol,
      equityCol, cumprod, cumprodAux, calculateMetrics, ilocLast,
      List.getLast?, expandingMax, expandingMaxAux, seriesMin, List.foldl,
      List.zip_cons_cons, List.zip_nil_right, List.zip_nil_left, List.filter]
    norm_num [List.getLast, BTStats.mk.injEq]

/-- C6 (amended) witness at the concrete closes [1, 2, 3] with zero
commission. -/
theorem monotone_long_zero_commission_witness :
    requiredColsOk ⟨true, true, true, true,
        [⟨1, 1, 1, 1, 1, 1⟩, ⟨2, 2, 2, 2, 2, 1⟩, ⟨3, 3, 3, 3, 3, 1⟩]⟩ = true
    ∧ List.Chain' (· < ·)
        ((⟨true, true, true, true,
            [⟨1, 1, 1, 1, 1, 1⟩, ⟨2, 2, 2, 2, 2, 1⟩, ⟨3, 3, 3, 3, 3, 1⟩]⟩ : BTInput).rows.map
          Bar.close)
    ∧ ∃ stats, run (fun rows => Except.ok (List.replicate rows.length 1))
        ⟨true, true, true, true,
          [⟨1, 1, 1, 1, 1, 1⟩, ⟨2, 2, 2, 2, 2, 1⟩, ⟨3, 3, 3, 3, 3, 1⟩]⟩
        100000 0
      = BTResult.ok stats ∧ 0 < stats.total_return ∧ stats.max_drawdown = 0 := by
  refine ⟨rfl, ?_, ?_⟩
  · simp only [List.map_cons, List.map_nil, List.chain'_cons, List.chain'_singleton,
      and_true]
    norm_num
  · exact monotone_long_zero_commission (fun rows => Except.ok (List.replicate rows.length 1))
      ⟨true, true, true, true,
        [⟨1, 1, 1, 1, 1, 1⟩, ⟨2, 2, 2, 2, 2, 1⟩, ⟨3, 3, 3, 3, 3, 1⟩]⟩
      100000 rfl
      (by simp only [List.map_cons, List.map_nil, List.chain'_cons,
            List.chain'_singleton, and_true]
          norm_num)
      (by intro x hx
          simp only [List.map_cons, List.map_nil, List.mem_cons,
            List.not_mem_nil, or_false] at hx
          rcases hx with rfl | rfl | rfl <;> norm_num)
      (by norm_num) rfl (by norm_num)

end DSA
